import Mathlib

/-!
Verification of the CUR selection core of `rascal/utils/cur.py`.

The development shallowly embeds `do_CUR` and `CURFilter` (fit / transform /
state extraction) over exact rational arithmetic.  External collaborators are
abstracted:

* `scipy.sparse.linalg.svds` is modelled by an oracle supplying the entries of
  the truncated factors `U` and `VT`; its documented input validation
  (`1 <= k < min(shape)`) is modelled exactly, failures surface as
  `CurError.dimensionError` (the spec's `DimensionError` taxonomy name for
  scipy's `ValueError`).
* `numpy.random` is modelled by its observable contract: `np.random.seed s`
  resets the process-global state, after which the i-th uniform variate drawn
  is a fixed function of `(s, i)`.  The global state is threaded explicitly as
  a `(seed, position)` pair.
* `np.argsort` (default `kind='quicksort'`) is embedded as numpy's npysort
  introsort for the argsort entry point: median-of-3 Hoare partitioning for
  segments of more than 16 elements, insertion sort for small segments, and a
  heapsort fallback once the depth limit `2 * floor(log2 n)` is exhausted.
-/

set_option allowUnsafeReducibility true

attribute [local semireducible] Rat.add Rat.mul Rat.inv Rat.sub

deriving instance DecidableEq for Except

namespace Cur

/-- A dense feature matrix `X[n_samples, n_features]` with rational entries. -/
structure Mat where
  rows : Nat
  cols : Nat
  entry : Nat → Nat → ℚ

/-- Oracle abstracting the numerical content of `scipy.sparse.linalg.svds`:
given the matrix and the rank `k`, it supplies entry functions for the left
factor `U` (`rows × k`) and the right factor `VT` (`k × cols`).  All theorems
hold for every oracle, hence for the true truncated SVD. -/
structure SvdOracle where
  uEntry : Mat → Nat → Nat → Nat → ℚ
  vtEntry : Mat → Nat → Nat → Nat → ℚ

/-- Errors surfaced by the embedded code.  `dimensionError` is the spec's
taxonomy name for the `ValueError` that `scipy.sparse.linalg.svds` raises when
`k <= 0 or k >= min(A.shape)`. -/
inductive CurError where
  | dimensionError : CurError
  | typeError : CurError
deriving DecidableEq, Repr

/-- `svds(X, k)`: scipy validates `1 <= k < min(X.shape)` before any
factorization work; on success the truncated factors are supplied by the
oracle. -/
def svds (o : SvdOracle) (X : Mat) (k : Nat) :
    Except CurError ((Nat → Nat → ℚ) × (Nat → Nat → ℚ)) :=
  if 1 ≤ k ∧ k < min X.rows X.cols then
    .ok (o.uEntry X k, o.vtEntry X k)
  else
    .error .dimensionError

/-- `np.mean(np.square(U), axis=1)` for `U : rows × k`: one leverage weight
per sample row. -/
def sampleWeights (U : Nat → Nat → ℚ) (m k : Nat) : List ℚ :=
  (List.range m).map (fun i => (((List.range k).map (fun j => U i j ^ 2)).sum) / k)

/-- `np.mean(np.square(VT), axis=0)` for `VT : k × cols`: one leverage weight
per feature column. -/
def featureWeights (VT : Nat → Nat → ℚ) (k n : Nat) : List ℚ :=
  (List.range n).map (fun j => (((List.range k).map (fun i => VT i j ^ 2)).sum) / k)

@[simp] theorem length_sampleWeights (U : Nat → Nat → ℚ) (m k : Nat) :
    (sampleWeights U m k).length = m := by
  simp [sampleWeights]

@[simp] theorem length_featureWeights (VT : Nat → Nat → ℚ) (k n : Nat) :
    (featureWeights VT k n).length = n := by
  simp [featureWeights]

/-! ### `np.argsort`, default kind (numpy npysort introsort, argsort entry)

The index array `tosort` is a `List Nat`; `k` maps an element of `tosort` to
its sort key (`k i` embeds `v[tosort[...]]` lookups).  `SMALL_QUICKSORT = 15`:
segments of more than 16 elements are partitioned (median of 3, Hoare scheme),
smaller ones are insertion sorted; after `2 * floor(log2 n)` partitioning
levels a heapsort fallback runs.  Inner loops carry explicit fuel large enough
to cover every reachable iteration count. -/

section Argsort

variable {α : Type} [LinearOrder α]

/-- `INTP_SWAP(*a, *b)` on the index array (no-op when a position is out of
range, which never happens in reachable states). -/
def aswap (t : List Nat) (i j : Nat) : List Nat :=
  if i < t.length ∧ j < t.length then (t.set i (t.getD j 0)).set j (t.getD i 0) else t

/-- The sort key stored at position `p` of the index array (`v[*p]`). -/
def keyAt (k : Nat → α) (t : List Nat) (p : Nat) : α := k (t.getD p 0)

/-- `do ++pi; while (LT(v[*pi], vp));` -/
def scanR (k : Nat → α) (t : List Nat) (vp : α) : Nat → Nat → Nat
  | p, 0 => p + 1
  | p, fuel + 1 => if keyAt k t (p + 1) < vp then scanR k t vp (p + 1) fuel else p + 1

/-- `do --pj; while (LT(vp, v[*pj]));` -/
def scanL (k : Nat → α) (t : List Nat) (vp : α) : Nat → Nat → Nat
  | p, 0 => p - 1
  | p, fuel + 1 => if vp < keyAt k t (p - 1) then scanL k t vp (p - 1) fuel else p - 1

/-- The inner `for (;;)` exchange loop of the Hoare partition. -/
def hoareLoop (k : Nat → α) (vp : α) : Nat → List Nat → Nat → Nat → List Nat × Nat
  | 0, t, pi, _ => (t, pi)
  | fuel + 1, t, pi, pj =>
    let pi' := scanR k t vp pi (t.length + 1)
    let pj' := scanL k t vp pj (t.length + 1)
    if pj' ≤ pi' then (t, pi')
    else hoareLoop k vp fuel (aswap t pi' pj') pi' pj'

/-- One quicksort partition of the segment `[pl, pr]`: median-of-3 pivot
selection, pivot parked at `pr - 1`, Hoare scan, pivot swapped back to its
final position `pi`. -/
def partitionSeg (k : Nat → α) (t : List Nat) (pl pr : Nat) : List Nat × Nat :=
  let pm := pl + (pr - pl) / 2
  let t1 := if keyAt k t pm < keyAt k t pl then aswap t pm pl else t
  let t2 := if keyAt k t1 pr < keyAt k t1 pm then aswap t1 pr pm else t1
  let t3 := if keyAt k t2 pm < keyAt k t2 pl then aswap t2 pm pl else t2
  let vp := keyAt k t3 pm
  let t4 := aswap t3 pm (pr - 1)
  let s := hoareLoop k vp (t.length + 2) t4 pl (pr - 1)
  (aswap s.1 s.2 (pr - 1), s.2)

/-- The trailing insertion sort of a small segment `[pl, pr]` (numpy's
element-shifting loop is the textbook stable insertion sort, embedded here via
`List.insertionSort` on the segment, comparing keys with `≤`). -/
def segSort (k : Nat → α) (t : List Nat) (pl pr : Nat) : List Nat :=
  t.take pl ++
    List.insertionSort (fun a b => k a ≤ k b) ((t.drop pl).take (pr + 1 - pl)) ++
    t.drop (pl + (pr + 1 - pl))

/-- Sift-down of `aheapsort` on the 1-based heap `a[x] = t[pl + x - 1]` of
size `nn`; the hole-shifting of the C code is realised by equivalent swaps
(the compared keys and the final arrangement coincide). -/
def siftDown (k : Nat → α) (pl nn : Nat) : Nat → List Nat → Nat → List Nat
  | 0, t, _ => t
  | fuel + 1, t, i =>
    let j := 2 * i
    if j ≤ nn then
      let j' := if j < nn ∧ keyAt k t (pl + j - 1) < keyAt k t (pl + j) then j + 1 else j
      if keyAt k t (pl + i - 1) < keyAt k t (pl + j' - 1) then
        siftDown k pl nn fuel (aswap t (pl + i - 1) (pl + j' - 1)) j'
      else t
    else t

/-- `aheapsort` on the segment of length `nn` starting at `pl`: heapify from
`nn / 2` down to `1`, then repeatedly swap the root with the last leaf and
sift. -/
def aheapsortSeg (k : Nat → α) (t : List Nat) (pl nn : Nat) : List Nat :=
  let heapified := ((List.range (nn / 2)).reverse.map (· + 1)).foldl
    (fun t l => siftDown k pl nn (nn + 2) t l) t
  ((List.range (nn - 1)).reverse.map (· + 2)).foldl
    (fun t n => siftDown k pl (n - 1) (nn + 2) (aswap t (pl + n - 1) pl) 1) heapified

/-- The driver loop of `aquicksort`: explicit segment stack, depth budget
`2 * floor(log2 n)`, partitioning only segments with `pr - pl > 15`, the
larger half pushed, heapsort once the depth budget is spent. -/
def introLoop (k : Nat → α) : Nat → List Nat → Nat → Nat → List (Nat × Nat) → Int → List Nat
  | 0, t, _, _, _, _ => t
  | fuel + 1, t, pl, pr, stack, depth =>
    if 15 < pr - pl then
      if depth < 0 then
        let t' := aheapsortSeg k t pl (pr - pl + 1)
        match stack with
        | [] => t'
        | (pl', pr') :: rest => introLoop k fuel t' pl' pr' rest (depth - 1)
      else
        let s := partitionSeg k t pl pr
        if s.2 - pl < pr - s.2 then
          introLoop k fuel s.1 pl (s.2 - 1) ((s.2 + 1, pr) :: stack) (depth - 1)
        else
          introLoop k fuel s.1 (s.2 + 1) pr ((pl, s.2 - 1) :: stack) (depth - 1)
    else
      let t' := segSort k t pl pr
      match stack with
      | [] => t'
      | (pl', pr') :: rest => introLoop k fuel t' pl' pr' rest depth

/-- `np.argsort` of the `n` keys `k 0, …, k (n-1)` (default kind): the
introsort driver started on `range n`. -/
def npArgsortF (k : Nat → α) (n : Nat) : List Nat :=
  introLoop k (3 * n + 32) (List.range n) 0 (n - 1) [] (2 * Nat.log2 n)

end Argsort

/-! ### The argsort machinery permutes the index array -/

section ArgsortPerm

variable {α : Type} [LinearOrder α]

theorem set_self_eq (l : List Nat) (i : Nat) (h : i < l.length) : l.set i l[i] = l := by
  apply List.ext_getElem
  · simp
  · intro n h1 h2
    rw [List.getElem_set]
    split
    · next heq => subst heq; rfl
    · rfl

theorem aswap_perm (t : List Nat) (i j : Nat) : List.Perm (aswap t i j) t := by
  unfold aswap
  split
  · next h =>
    obtain ⟨hi, hj⟩ := h
    rw [List.getD_eq_getElem _ _ hj, List.getD_eq_getElem _ _ hi]
    by_cases hij : i = j
    · subst hij
      rw [List.set_set, set_self_eq t i hi]
    · rw [List.perm_iff_count]
      intro a
      have hj2 : j < (t.set i t[j]).length := by simpa using hj
      have hji : (t.set i t[j])[j] = t[j] := List.getElem_set_ne hij _
      have hcnt : t[i] = a → 0 < List.count a t := fun he =>
        List.count_pos_iff.mpr (he ▸ List.getElem_mem hi)
      rw [List.count_set _ _ _ _ (by simpa using hj), List.count_set _ _ _ _ hi, hji]
      simp only [beq_iff_eq]
      by_cases h1 : t[i] = a <;> by_cases h2 : t[j] = a <;>
        simp only [h1, h2, if_true, if_false, if_pos, if_neg] <;>
        first
          | (have hc1 := hcnt h1; omega)
          | omega
  · exact List.Perm.refl t

theorem hoareLoop_perm (k : Nat → α) (vp : α) :
    ∀ (fuel : Nat) (t : List Nat) (pi pj : Nat), List.Perm (hoareLoop k vp fuel t pi pj).1 t := by
  intro fuel
  induction fuel with
  | zero => intro t _ _; exact List.Perm.refl t
  | succ n ih =>
    intro t pi pj
    rw [hoareLoop]
    split
    · exact List.Perm.refl t
    · exact (ih _ _ _).trans (aswap_perm _ _ _)

theorem ifAswap_perm (c : Prop) [Decidable c] (t : List Nat) (i j : Nat) :
    List.Perm (if c then aswap t i j else t) t := by
  split
  · exact aswap_perm t i j
  · exact List.Perm.refl t

theorem partitionSeg_perm (k : Nat → α) (t : List Nat) (pl pr : Nat) :
    List.Perm (partitionSeg k t pl pr).1 t := by
  unfold partitionSeg
  refine (aswap_perm _ _ _).trans ((hoareLoop_perm _ _ _ _ _ _).trans ?_)
  refine (aswap_perm _ _ _).trans ?_
  refine (ifAswap_perm _ _ _ _).trans ?_
  refine (ifAswap_perm _ _ _ _).trans ?_
  exact ifAswap_perm _ _ _ _

theorem segSort_perm (k : Nat → α) (t : List Nat) (pl pr : Nat) :
    List.Perm (segSort k t pl pr) t := by
  unfold segSort
  conv_rhs => rw [← List.take_append_drop pl t]
  rw [List.append_assoc]
  refine List.Perm.append_left _ ?_
  have hsplit : t.drop pl =
      (t.drop pl).take (pr + 1 - pl) ++ t.drop (pl + (pr + 1 - pl)) := by
    rw [← List.drop_drop, List.take_append_drop]
  conv_rhs => rw [hsplit]
  exact List.Perm.append_right _ (List.perm_insertionSort _ _)

theorem siftDown_perm (k : Nat → α) (pl nn : Nat) :
    ∀ (fuel : Nat) (t : List Nat) (i : Nat), List.Perm (siftDown k pl nn fuel t i) t := by
  intro fuel
  induction fuel with
  | zero => intro t _; exact List.Perm.refl t
  | succ n ih =>
    intro t i
    rw [siftDown]
    dsimp only
    split
    · split
      all_goals
        split
        · exact (ih _ _).trans (aswap_perm _ _ _)
        · exact List.Perm.refl t
    · exact List.Perm.refl t

theorem foldl_perm {β : Type} (f : List Nat → β → List Nat)
    (hf : ∀ t x, List.Perm (f t x) t) :
    ∀ (l : List β) (t : List Nat), List.Perm (l.foldl f t) t := by
  intro l
  induction l with
  | nil => intro t; exact List.Perm.refl t
  | cons x xs ih => intro t; exact (ih (f t x)).trans (hf t x)

theorem aheapsortSeg_perm (k : Nat → α) (t : List Nat) (pl nn : Nat) :
    List.Perm (aheapsortSeg k t pl nn) t := by
  unfold aheapsortSeg
  refine (foldl_perm _ (fun t n => ?_) _ _).trans (foldl_perm _ (fun t l => ?_) _ _)
  · exact (siftDown_perm _ _ _ _ _ _).trans (aswap_perm _ _ _)
  · exact siftDown_perm _ _ _ _ _ _

theorem introLoop_perm (k : Nat → α) :
    ∀ (fuel : Nat) (t : List Nat) (pl pr : Nat) (stack : List (Nat × Nat)) (depth : Int),
      List.Perm (introLoop k fuel t pl pr stack depth) t := by
  intro fuel
  induction fuel with
  | zero => intro t _ _ _ _; exact List.Perm.refl t
  | succ n ih =>
    intro t pl pr stack depth
    rw [introLoop]
    dsimp only
    split
    · split
      · cases stack with
        | nil => exact aheapsortSeg_perm _ _ _ _
        | cons hd rest => exact (ih _ _ _ _ _).trans (aheapsortSeg_perm _ _ _ _)
      · split
        · exact (ih _ _ _ _ _).trans (partitionSeg_perm _ _ _ _)
        · exact (ih _ _ _ _ _).trans (partitionSeg_perm _ _ _ _)
    · cases stack with
      | nil => exact segSort_perm _ _ _ _
      | cons hd rest => exact (ih _ _ _ _ _).trans (segSort_perm _ _ _ _)

theorem npArgsortF_perm (k : Nat → α) (n : Nat) : List.Perm (npArgsortF k n) (List.range n) :=
  introLoop_perm k _ _ _ _ _ _

theorem npArgsortF_length (k : Nat → α) (n : Nat) : (npArgsortF k n).length = n := by
  simpa using (npArgsortF_perm k n).length_eq

theorem npArgsortF_nodup (k : Nat → α) (n : Nat) : (npArgsortF k n).Nodup :=
  ((npArgsortF_perm k n).nodup_iff).mpr (List.nodup_range n)

theorem mem_npArgsortF_lt (k : Nat → α) (n : Nat) {x : Nat}
    (hx : x ∈ npArgsortF k n) : x < n := by
  have := (npArgsortF_perm k n).mem_iff.mp hx
  simpa using this

end ArgsortPerm

/-- `np.argsort` of a rational vector. -/
def npArgsort (ks : List ℚ) : List Nat :=
  npArgsortF (fun i => ks.getD i 0) ks.length

/-- `np.argsort` of an integer vector (feature-mode `transform`). -/
def npArgsortNat (ks : List Nat) : List Nat :=
  npArgsortF (fun i => ks.getD i 0) ks.length

/-! ### The process-global `numpy.random` generator -/

/-- Observable state of the process-global numpy random generator: the seed it
was last seeded with and how many variates have been drawn since. -/
structure NpRandomState where
  seed : Nat
  pos : Nat
deriving DecidableEq, Repr

/-- `np.random.seed s` overwrites the global generator state. -/
def npSeed (s : Nat) : NpRandomState := ⟨s, 0⟩

/-- `np.random.rand n` draws `n` uniform variates from the global generator
and advances it.  `mt s i` abstracts the value of the i-th variate produced
after seeding with `s` (the Mersenne-Twister stream). -/
def npRand (mt : Nat → Nat → ℚ) (st : NpRandomState) (n : Nat) :
    List ℚ × NpRandomState :=
  ((List.range n).map (fun i => mt st.seed (st.pos + i)), ⟨st.seed, st.pos + n⟩)

/-! ### `do_CUR` -/

/-- The three recognised `act_on` values (`CURFilter.__init__` rejects any
other string at construction time). -/
inductive ActOn where
  | sample
  | samplePerSpecies
  | feature
deriving DecidableEq, Repr

/-- `'sample' in act_on`: Python substring containment, true for both
`'sample'` and `'sample per species'`. -/
def ActOn.containsSample : ActOn → Bool
  | .sample => true
  | .samplePerSpecies => true
  | .feature => false

/-- Number of candidate indices of the selected axis. -/
def axisLen (X : Mat) (a : ActOn) : Nat :=
  if a.containsSample then X.rows else X.cols

/-- `do_CUR(X, Nsel, act_on, is_deterministic, seed)`.

* `U, _, VT = svds(X, Nsel)`;
* `weights = np.mean(np.square(U), axis=1)` on the sample axis, else
  `np.mean(np.square(VT), axis=0)`;
* deterministic: `sel = np.argsort(-weights)[:Nsel]`;
* stochastic: `np.random.seed(seed)` on the process-global generator, then
  `sel = np.argsort(np.random.rand(*weights.shape) - weights)[:Nsel]`.

The global generator state is threaded explicitly.  The `verbose` diagnostic
(reconstruction RMSE printing) reads the selection but never modifies it or
the return value, so it is not modelled. -/
def do_CUR (o : SvdOracle) (mt : Nat → Nat → ℚ) (X : Mat) (Nsel : Nat) (act_on : ActOn)
    (is_deterministic : Bool) (seed : Nat) (st : NpRandomState) :
    Except CurError (List Nat × NpRandomState) :=
  match svds o X Nsel with
  | .error e => .error e
  | .ok (U, VT) =>
    let weights : List ℚ :=
      if act_on.containsSample then sampleWeights U X.rows Nsel
      else featureWeights VT Nsel X.cols
    if is_deterministic then
      .ok ((npArgsort (weights.map (fun w => -w))).take Nsel, st)
    else
      let st1 := npSeed seed
      let r := npRand mt st1 weights.length
      .ok ((npArgsort (List.zipWith (fun a b => a - b) r.1 weights)).take Nsel, r.2)

/-- Taking the first `Nsel` entries of an argsort result yields `Nsel`
distinct indices below the number of keys. -/
theorem npArgsort_take_spec (ks : List ℚ) (Nsel : Nat) (h : Nsel ≤ ks.length) :
    ((npArgsort ks).take Nsel).length = Nsel ∧ ((npArgsort ks).take Nsel).Nodup ∧
      ∀ i ∈ (npArgsort ks).take Nsel, i < ks.length := by
  unfold npArgsort
  refine ⟨?_, ?_, ?_⟩
  · rw [List.length_take, npArgsortF_length]
    omega
  · exact (List.take_sublist _ _).nodup (npArgsortF_nodup _ _)
  · intro i hi
    exact mem_npArgsortF_lt _ _ ((List.take_sublist _ _).mem hi)

/-- With `1 ≤ Nsel < min(X.shape)`, `do_CUR` succeeds. -/
theorem do_CUR_ok (o : SvdOracle) (mt : Nat → Nat → ℚ) (X : Mat) (Nsel : Nat)
    (act_on : ActOn) (is_deterministic : Bool) (seed : Nat) (st : NpRandomState)
    (h1 : 1 ≤ Nsel) (h2 : Nsel < min X.rows X.cols) :
    ∃ sel st', do_CUR o mt X Nsel act_on is_deterministic seed st = .ok (sel, st') := by
  unfold do_CUR svds
  rw [if_pos ⟨h1, h2⟩]
  dsimp only
  split
  · exact ⟨_, _, rfl⟩
  · exact ⟨_, _, rfl⟩

/-- Claim C1: for every feature matrix X and budget `1 ≤ Nsel < min(X.shape)`,
`do_CUR(X, Nsel, axis, policy)` returns exactly `Nsel` pairwise-distinct
indices, each a valid index into the selected axis of X (row index for the
sample axis, column index for the feature axis).  Quantified over every SVD
oracle, every random stream, both policies and every incoming generator
state. -/
theorem do_CUR_budget_distinct_valid (o : SvdOracle) (mt : Nat → Nat → ℚ) (X : Mat)
    (Nsel : Nat) (act_on : ActOn) (is_deterministic : Bool) (seed : Nat)
    (st : NpRandomState) (h1 : 1 ≤ Nsel) (h2 : Nsel < min X.rows X.cols) :
    ∃ sel st', do_CUR o mt X Nsel act_on is_deterministic seed st = .ok (sel, st') ∧
      sel.length = Nsel ∧ sel.Nodup ∧ ∀ i ∈ sel, i < axisLen X act_on := by
  have hax : Nsel ≤ axisLen X act_on := by
    unfold axisLen
    split <;> omega
  unfold do_CUR svds
  rw [if_pos ⟨h1, h2⟩]
  dsimp only
  have hlen : (if act_on.containsSample = true then
      sampleWeights (o.uEntry X Nsel) X.rows Nsel
    else featureWeights (o.vtEntry X Nsel) Nsel X.cols).length = axisLen X act_on := by
    unfold axisLen
    split <;> simp
  split
  · refine ⟨_, _, rfl, ?_⟩
    have := npArgsort_take_spec
      ((if act_on.containsSample = true then
          sampleWeights (o.uEntry X Nsel) X.rows Nsel
        else featureWeights (o.vtEntry X Nsel) Nsel X.cols).map (fun w => -w)) Nsel
      (by rw [List.length_map, hlen]; exact hax)
    rw [List.length_map, hlen] at this
    exact this
  · refine ⟨_, _, rfl, ?_⟩
    have hzip : (List.zipWith (fun a b => a - b)
        (npRand mt (npSeed seed)
          (if act_on.containsSample = true then
              sampleWeights (o.uEntry X Nsel) X.rows Nsel
            else featureWeights (o.vtEntry X Nsel) Nsel X.cols).length).1
        (if act_on.containsSample = true then
            sampleWeights (o.uEntry X Nsel) X.rows Nsel
          else featureWeights (o.vtEntry X Nsel) Nsel X.cols)).length
        = axisLen X act_on := by
      rw [List.length_zipWith, npRand, hlen]
      simp
    have := npArgsort_take_spec _ Nsel (hzip ▸ hax)
    rw [hzip] at this
    exact this

/-- Zero SVD oracle used by concrete witnesses: every factor entry is `0`. -/
def zeroOracle : SvdOracle := ⟨fun _ _ _ _ => 0, fun _ _ _ _ => 0⟩

/-- Zero random stream used by concrete witnesses. -/
def zeroMt : Nat → Nat → ℚ := fun _ _ => 0

/-- A concrete 2×2 all-zero feature matrix. -/
def mat2 : Mat := ⟨2, 2, fun _ _ => 0⟩

/-- Witness for C1 at a concrete input. -/
theorem do_CUR_budget_distinct_valid_witness :
    (1 ≤ 1 ∧ 1 < min mat2.rows mat2.cols) ∧
      (∃ sel st', do_CUR zeroOracle zeroMt mat2 1 .sample true 10 ⟨0, 0⟩ = .ok (sel, st') ∧
        sel.length = 1 ∧ sel.Nodup ∧ ∀ i ∈ sel, i < axisLen mat2 .sample) :=
  ⟨⟨by decide, by decide⟩,
    do_CUR_budget_distinct_valid zeroOracle zeroMt mat2 1 .sample true 10 ⟨0, 0⟩
      (by decide) (by decide)⟩

/-! ### Stochastic selection: reproducibility and global generator state -/

/-- The stochastic branch of `do_CUR` reseeds the global generator before
drawing, so its whole result (selection and outgoing state) is independent of
the incoming generator state.  Shared helper for C2 and C9. -/
theorem do_CUR_stochastic_state_independent (o : SvdOracle) (mt : Nat → Nat → ℚ)
    (X : Mat) (Nsel : Nat) (act_on : ActOn) (seed : Nat) (st1 st2 : NpRandomState) :
    do_CUR o mt X Nsel act_on false seed st1 = do_CUR o mt X Nsel act_on false seed st2 := by
  unfold do_CUR
  cases svds o X Nsel with
  | error e => rfl
  | ok p => rfl

/-- Claim C2: two stochastic selections (`is_deterministic=False`) with the
same seed return identical index sequences — the stochastic result is a pure
function of (matrix, budget, axis, seed), whatever the incoming global
generator states of the two calls were. -/
theorem do_CUR_stochastic_reproducible (o : SvdOracle) (mt : Nat → Nat → ℚ)
    (X : Mat) (Nsel : Nat) (act_on : ActOn) (seed : Nat) (st1 st2 : NpRandomState) :
    (do_CUR o mt X Nsel act_on false seed st1).map Prod.fst =
      (do_CUR o mt X Nsel act_on false seed st2).map Prod.fst :=
  congrArg (Except.map Prod.fst)
    (do_CUR_stochastic_state_independent o mt X Nsel act_on seed st1 st2)

/-- Spec-side reference computation for the stochastic selection (spec §4.1
step 3): seed a fresh isolated random generator with the given seed; draw one
uniform variate per candidate; sort candidates ascending by
`uniform − weight`, where the weight is the leverage weight of the
rank-`budget` truncated SVD; take the first `budget` indices in that order. -/
def stochasticSelectionSpec (o : SvdOracle) (mt : Nat → Nat → ℚ) (X : Mat)
    (budget : Nat) (act_on : ActOn) (seed : Nat) : Except CurError (List Nat) :=
  match svds o X budget with
  | .error e => .error e
  | .ok (U, VT) =>
    let weights : List ℚ :=
      if act_on.containsSample then sampleWeights U X.rows budget
      else featureWeights VT budget X.cols
    let uniforms : List ℚ := (List.range weights.length).map (mt seed)
    .ok ((npArgsort (List.zipWith (fun u w => u - w) uniforms weights)).take budget)

/-- Claim C3: in stochastic mode the selection returned by `do_CUR` equals the
spec's reference computation (`argsort(uniform − weight)` truncated to the
budget), for every matrix, axis, seed and incoming generator state. -/
theorem do_CUR_stochastic_refines_spec (o : SvdOracle) (mt : Nat → Nat → ℚ)
    (X : Mat) (Nsel : Nat) (act_on : ActOn) (seed : Nat) (st : NpRandomState) :
    (do_CUR o mt X Nsel act_on false seed st).map Prod.fst =
      stochasticSelectionSpec o mt X Nsel act_on seed := by
  unfold do_CUR stochasticSelectionSpec
  cases svds o X Nsel with
  | error e => rfl
  | ok p =>
    simp [npRand, npSeed, Except.map]

/-- Claim C6 (amended): a stochastic selection call seeds the process-global
numpy generator with the configured seed and draws one variate per candidate
from it, so the call overwrites the shared global generator state: on
success the state is left at `(seed, number of candidates)` regardless of
what it was before. -/
theorem do_CUR_stochastic_overwrites_global_state (o : SvdOracle)
    (mt : Nat → Nat → ℚ) (X : Mat) (Nsel : Nat) (act_on : ActOn) (seed : Nat)
    (st : NpRandomState) (sel : List Nat) (st' : NpRandomState)
    (h : do_CUR o mt X Nsel act_on false seed st = .ok (sel, st')) :
    st' = ⟨seed, axisLen X act_on⟩ := by
  unfold do_CUR at h
  cases hsv : svds o X Nsel with
  | error e => rw [hsv] at h; cases h
  | ok p =>
    rw [hsv] at h
    dsimp only [npRand, npSeed] at h
    have hst := congrArg Prod.snd (Except.ok.inj h)
    dsimp only at hst
    rw [← hst]
    unfold axisLen
    split
    · next hc => simp [hc]
    · next hc => simp [Bool.not_eq_true _ ▸ hc]

/-- Witness for the amended C6 at a concrete input. -/
theorem do_CUR_stochastic_overwrites_global_state_witness :
    (⟨10, 2⟩ : NpRandomState) = ⟨10, axisLen mat2 ActOn.sample⟩ :=
  do_CUR_stochastic_overwrites_global_state zeroOracle zeroMt mat2 1 .sample 10
    ⟨0, 0⟩ [0] ⟨10, 2⟩ (by decide)

/-- Random stream separating global states, for the C6 counterexample. -/
def sepMt : Nat → Nat → ℚ := fun s i => (s : ℚ) * 100 + (i : ℚ)

/-- Counterexample to claim C6 as stated: a stochastic selection call writes
the shared global generator state (`(0,0)` becomes `(10,2)`), and an
unrelated draw performed elsewhere in the process afterwards obtains a
different value than it would have obtained before the call. -/
theorem do_CUR_reads_writes_global_state_counterexample :
    do_CUR zeroOracle sepMt mat2 1 .sample false 10 ⟨0, 0⟩ = .ok ([0], ⟨10, 2⟩) ∧
      (⟨10, 2⟩ : NpRandomState) ≠ ⟨0, 0⟩ ∧
      (npRand sepMt ⟨10, 2⟩ 1).1 ≠ (npRand sepMt ⟨0, 0⟩ 1).1 := by
  refine ⟨by decide, by decide, by decide⟩

/-! ### Deterministic selection and tie-breaking (claim C4)

numpy's default argsort is only an insertion sort — hence only stable — for
inputs of at most 16 elements; beyond that the Hoare partitioning reorders
equal keys.  The development below proves stability for the small case and
exhibits the reordering at 17 equal keys. -/

/-- The leverage weights computed inside `do_CUR` for the chosen axis. -/
def curWeights (o : SvdOracle) (X : Mat) (Nsel : Nat) (act_on : ActOn) : List ℚ :=
  if act_on.containsSample then sampleWeights (o.uEntry X Nsel) X.rows Nsel
  else featureWeights (o.vtEntry X Nsel) Nsel X.cols

section ArgsortStable

variable {α : Type} [LinearOrder α]

theorem introLoop_succ_small (k : Nat → α) (fuel : Nat) (t : List Nat) (pl pr : Nat)
    (depth : Int) (h : ¬ 15 < pr - pl) :
    introLoop k (fuel + 1) t pl pr [] depth = segSort k t pl pr := by
  rw [introLoop, if_neg h]

/-- For at most 16 keys the whole argsort run is a single insertion sort of
`range n`. -/
theorem npArgsortF_small (k : Nat → α) (n : Nat) (h : n ≤ 16) :
    npArgsortF k n = List.insertionSort (fun a b => k a ≤ k b) (List.range n) := by
  unfold npArgsortF
  rw [show 3 * n + 32 = (3 * n + 31) + 1 from rfl,
    introLoop_succ_small k (3 * n + 31) (List.range n) 0 (n - 1) _ (by omega)]
  unfold segSort
  cases n with
  | zero => rfl
  | succ m =>
    have e1 : m + 1 - 1 + 1 - 0 = m + 1 := by omega
    rw [List.take_zero, List.drop_zero, Nat.zero_add, e1,
      List.take_of_length_le (by simp), List.drop_eq_nil_of_le (by simp)]
    simp

/-- Inserting an index smaller than everything already present into a
lex-sorted list, comparing keys only, keeps the list lex-sorted (the heart of
insertion-sort stability). -/
theorem orderedInsert_key_sorted_lex (k : Nat → α) (a : Nat) :
    ∀ s : List Nat, (∀ b ∈ s, a < b) →
      List.Sorted (fun x y => k x < k y ∨ (k x = k y ∧ x ≤ y)) s →
      List.Sorted (fun x y => k x < k y ∨ (k x = k y ∧ x ≤ y))
        (List.orderedInsert (fun x y => k x ≤ k y) a s) := by
  intro s
  induction s with
  | nil => intro _ _; simp
  | cons b t ih =>
    intro ha hs
    rw [List.sorted_cons] at hs
    obtain ⟨hbt, hst⟩ := hs
    rw [List.orderedInsert]
    split
    · next hab =>
      rw [List.sorted_cons]
      refine ⟨?_, List.sorted_cons.mpr ⟨hbt, hst⟩⟩
      intro c hc
      rcases List.mem_cons.mp hc with rfl | hct
      · rcases lt_or_eq_of_le hab with hlt | heq
        · exact Or.inl hlt
        · exact Or.inr ⟨heq, Nat.le_of_lt (ha c (List.mem_cons_self _ _))⟩
      · have hkbc : k b ≤ k c := by
          rcases hbt c hct with h' | ⟨h', _⟩
          · exact le_of_lt h'
          · exact le_of_eq h'
        rcases lt_or_eq_of_le (le_trans hab hkbc) with hlt | heq
        · exact Or.inl hlt
        · exact Or.inr ⟨heq, Nat.le_of_lt (ha c (List.mem_cons_of_mem _ hct))⟩
    · next hab =>
      have hba : k b < k a := lt_of_not_le hab
      rw [List.sorted_cons]
      constructor
      · intro c hc
        rcases (List.mem_orderedInsert _).mp hc with rfl | hct
        · exact Or.inl hba
        · exact hbt c hct
      · exact ih (fun c hc => ha c (List.mem_cons_of_mem _ hc)) hst

/-- Insertion sort by key of a strictly index-increasing list is sorted for
the key-then-index lexicographic order: numpy's small-case argsort is stable. -/
theorem insertionSort_key_sorted_lex (k : Nat → α) :
    ∀ l : List Nat, l.Pairwise (· < ·) →
      List.Sorted (fun x y => k x < k y ∨ (k x = k y ∧ x ≤ y))
        (List.insertionSort (fun x y => k x ≤ k y) l) := by
  intro l
  induction l with
  | nil => intro _; simp
  | cons a t ih =>
    intro hp
    rw [List.pairwise_cons] at hp
    rw [List.insertionSort]
    refine orderedInsert_key_sorted_lex k a _ ?_ (ih hp.2)
    intro b hb
    exact hp.1 b ((List.mem_insertionSort _).mp hb)

/-- The stable argsort: indices ordered by key, ties broken by ascending
index. -/
def lexArgsort (k : Nat → α) (n : Nat) : List Nat :=
  List.insertionSort (fun x y => k x < k y ∨ (k x = k y ∧ x ≤ y)) (List.range n)

/-- For at most 16 keys, numpy's argsort agrees with the stable argsort. -/
theorem npArgsortF_small_stable (k : Nat → α) (n : Nat) (h : n ≤ 16) :
    npArgsortF k n = lexArgsort k n := by
  haveI htot : IsTotal Nat (fun x y => k x < k y ∨ (k x = k y ∧ x ≤ y)) := by
    constructor
    intro a b
    rcases lt_trichotomy (k a) (k b) with h' | h' | h'
    · exact Or.inl (Or.inl h')
    · rcases Nat.le_total a b with hab | hba
      · exact Or.inl (Or.inr ⟨h', hab⟩)
      · exact Or.inr (Or.inr ⟨h'.symm, hba⟩)
    · exact Or.inr (Or.inl h')
  haveI htr : IsTrans Nat (fun x y => k x < k y ∨ (k x = k y ∧ x ≤ y)) := by
    constructor
    intro a b c hab hbc
    rcases hab with h1 | ⟨h1, h1'⟩ <;> rcases hbc with h2 | ⟨h2, h2'⟩
    · exact Or.inl (lt_trans h1 h2)
    · exact Or.inl (h2 ▸ h1)
    · exact Or.inl (h1 ▸ h2)
    · exact Or.inr ⟨h1.trans h2, Nat.le_trans h1' h2'⟩
  haveI hanti : IsAntisymm Nat (fun x y => k x < k y ∨ (k x = k y ∧ x ≤ y)) := by
    constructor
    intro a b hab hba
    rcases hab with h1 | ⟨h1, h1'⟩ <;> rcases hba with h2 | ⟨h2, h2'⟩
    · exact absurd (lt_trans h1 h2) (lt_irrefl _)
    · exact absurd h1 (h2 ▸ lt_irrefl _)
    · exact absurd h2 (h1 ▸ lt_irrefl _)
    · exact Nat.le_antisymm h1' h2'
  have hs1 : List.Sorted (fun x y => k x < k y ∨ (k x = k y ∧ x ≤ y)) (npArgsortF k n) := by
    rw [npArgsortF_small k n h]
    exact insertionSort_key_sorted_lex k _ (List.pairwise_lt_range n)
  have hs2 : List.Sorted (fun x y => k x < k y ∨ (k x = k y ∧ x ≤ y)) (lexArgsort k n) :=
    List.sorted_insertionSort _ _
  exact List.eq_of_perm_of_sorted
    ((npArgsortF_perm k n).trans (List.perm_insertionSort _ _).symm) hs1 hs2

end ArgsortStable

/-- Congruence of insertion sort in the relation. -/
theorem insertionSort_congr {α : Type} (r s : α → α → Prop) [DecidableRel r] [DecidableRel s]
    (hrs : ∀ a b, r a b ↔ s a b) :
    ∀ l : List α, List.insertionSort r l = List.insertionSort s l := by
  have hoi : ∀ (a : α) (l : List α),
      List.orderedInsert r a l = List.orderedInsert s a l := by
    intro a l
    induction l with
    | nil => rfl
    | cons b t ih =>
      rw [List.orderedInsert, List.orderedInsert]
      by_cases h : r a b
      · rw [if_pos h, if_pos ((hrs a b).mp h)]
      · rw [if_neg h, if_neg (fun h' => h ((hrs a b).mpr h')), ih]
  intro l
  induction l with
  | nil => rfl
  | cons a t ih => rw [List.insertionSort, List.insertionSort, ih, hoi]

theorem getD_map_neg (w : List ℚ) (i : Nat) :
    (w.map (fun x => -x)).getD i 0 = -(w.getD i 0) := by
  by_cases h : i < w.length
  · rw [List.getD_eq_getElem _ _ (by simpa using h), List.getD_eq_getElem _ _ h,
      List.getElem_map]
  · rw [List.getD_eq_default _ _ (by simpa using Nat.le_of_not_lt h),
      List.getD_eq_default _ _ (Nat.le_of_not_lt h), neg_zero]

/-- Spec-side deterministic selection: candidates sorted by leverage weight
descending, ties between equal-weight candidates broken by ascending original
index, truncated to the budget. -/
def detSelectionStable (w : List ℚ) (budget : Nat) : List Nat :=
  (List.insertionSort
    (fun a b => w.getD b 0 < w.getD a 0 ∨ (w.getD a 0 = w.getD b 0 ∧ a ≤ b))
    (List.range w.length)).take budget

theorem curWeights_length (o : SvdOracle) (X : Mat) (Nsel : Nat) (act_on : ActOn) :
    (curWeights o X Nsel act_on).length = axisLen X act_on := by
  unfold curWeights axisLen
  split <;> simp

/-- Claim C4 (amended): in deterministic mode, when the selected axis has at
most 16 candidates, the selection takes the budget candidates of highest
leverage weight in weight-descending order with ties broken by ascending
original index (numpy's argsort is a stable insertion sort there); with 17 or
more candidates numpy's introsort gives no such guarantee. -/
theorem do_CUR_deterministic_stable_small (o : SvdOracle) (mt : Nat → Nat → ℚ)
    (X : Mat) (Nsel : Nat) (act_on : ActOn) (seed : Nat) (st : NpRandomState)
    (h1 : 1 ≤ Nsel) (h2 : Nsel < min X.rows X.cols) (h16 : axisLen X act_on ≤ 16) :
    do_CUR o mt X Nsel act_on true seed st =
      .ok (detSelectionStable (curWeights o X Nsel act_on) Nsel, st) := by
  unfold do_CUR svds
  rw [if_pos ⟨h1, h2⟩]
  dsimp only
  rw [if_pos rfl]
  have hw : (if act_on.containsSample = true then
      sampleWeights (o.uEntry X Nsel) X.rows Nsel
    else featureWeights (o.vtEntry X Nsel) Nsel X.cols) = curWeights o X Nsel act_on := rfl
  rw [hw]
  set w := curWeights o X Nsel act_on with hwdef
  have hkey : (fun i => ((w.map (fun x => -x)).getD i 0 : ℚ)) =
      (fun i => -(w.getD i 0) : Nat → ℚ) := funext (getD_map_neg w)
  have hlen : (w.map (fun x => -x)).length = w.length := List.length_map _ _
  have hstep : npArgsort (w.map (fun x => -x)) =
      lexArgsort (fun i => -(w.getD i 0) : Nat → ℚ) w.length := by
    unfold npArgsort
    rw [hlen, hkey]
    exact npArgsortF_small_stable _ _
      (by rw [hwdef, curWeights_length]; exact h16)
  rw [hstep]
  unfold lexArgsort detSelectionStable
  rw [insertionSort_congr _
    (fun a b => w.getD b 0 < w.getD a 0 ∨ (w.getD a 0 = w.getD b 0 ∧ a ≤ b))
    (by
      intro a b
      constructor
      · rintro (h | ⟨h, h'⟩)
        · exact Or.inl (by simpa using h)
        · exact Or.inr ⟨by simpa using neg_injective h, h'⟩
      · rintro (h | ⟨h, h'⟩)
        · exact Or.inl (by simpa using h)
        · exact Or.inr ⟨congrArg (fun x => -x) h, h'⟩)
    (List.range w.length)]

/-- Witness for the amended C4 at a concrete input. -/
theorem do_CUR_deterministic_stable_small_witness :
    (1 ≤ 1 ∧ 1 < min mat2.rows mat2.cols ∧ axisLen mat2 ActOn.sample ≤ 16) ∧
      do_CUR zeroOracle zeroMt mat2 1 .sample true 10 ⟨0, 0⟩ =
        .ok (detSelectionStable (curWeights zeroOracle mat2 1 .sample) 1, ⟨0, 0⟩) :=
  ⟨⟨by decide, by decide, by decide⟩,
    do_CUR_deterministic_stable_small zeroOracle zeroMt mat2 1 .sample 10 ⟨0, 0⟩
      (by decide) (by decide) (by decide)⟩

/-- A concrete 17×17 all-zero feature matrix: all 17 sample candidates have
equal leverage weight. -/
def mat17 : Mat := ⟨17, 17, fun _ _ => 0⟩

/-- Counterexample to claim C4 as stated: at 17 candidates of pairwise equal
leverage weight, the deterministic selection with budget 2 returns `[0, 14]`:
candidates 13 and 14 have equal weight, yet 14 is ordered (and selected)
before 13 — the tie is not broken by ascending original index. -/
theorem do_CUR_deterministic_tie_counterexample :
    do_CUR zeroOracle zeroMt mat17 2 .sample true 10 ⟨0, 0⟩ = .ok ([0, 14], ⟨0, 0⟩) ∧
      (curWeights zeroOracle mat17 2 .sample).getD 13 0 =
        (curWeights zeroOracle mat17 2 .sample).getD 14 0 ∧
      14 ∈ ([0, 14] : List Nat) ∧ 13 ∉ ([0, 14] : List Nat) := by
  refine ⟨by decide, by decide, by decide, by decide⟩

/-! ### `CURFilter`

External collaborators of the orchestrator are abstracted: the feature matrix
and per-sample species labels come from the structure collection
(`managers.get_features`, external C++ bindings); the index-remapping helpers
of `filter_utils` and the sparse-point builder are arbitrary pure functions
(`convert_sps`, `convert_sample`, `extendSparse`, `featCoeffs`), universally
quantified in every theorem. -/

/-- `Nselect`: an integer for `sample`/`feature` mode, a species-to-budget
mapping (insertion-ordered association list, as a Python dict) for
`sample per species`. -/
inductive NSelect where
  | scalar : Nat → NSelect
  | bySp : List (Nat × Nat) → NSelect
deriving DecidableEq, Repr

/-- The structure collection: `features` is the dense feature matrix obtained
from the external representation calculator, `speciesOf` labels each global
sample row with its center-atom species. -/
structure Managers where
  features : Mat
  speciesOf : Nat → Nat

/-- Modelled from the spec: `filter_utils.get_index_mappings_sample_per_species`
is repository code not under src/; per spec §3/§4.3 it supplies, for each
species, the global sample indices whose species label matches (species
stratification partitions samples by their label). -/
def indicesBySp (m : Managers) (sp : Nat) : List Nat :=
  (List.range m.features.rows).filter (fun i => m.speciesOf i = sp)

/-- The row slice `X[idxs]` (`X_by_sp[sp] = X[indices_by_sp[sp]]`). -/
def rowSlice (X : Mat) (idxs : List Nat) : Mat :=
  ⟨idxs.length, X.cols, fun i j => X.entry (idxs.getD i 0) j⟩

/-- The orchestrator's state: constructor parameters plus the cached
selection fields (all `None` until `fit`).  `σ` is the type of the
structure-aware converted selection produced by the external remapping
collaborator. -/
structure CURFilter (σ : Type) where
  Nselect : NSelect
  act_on : ActOn
  is_deterministic : Bool
  seed : Nat
  selected_ids : Option (σ ⊕ List Nat)
  selected_sample_ids : Option (List Nat)
  selected_sample_ids_by_sp : Option (List (Nat × List Nat))
  selected_feature_ids_global : Option (List Nat)
deriving DecidableEq

/-- `CURFilter.__init__`: parameters stored, selection state cleared.  (With
`ActOn` a closed type the `act_on` validation cannot fail.) -/
def initFilter (σ : Type) (N : NSelect) (a : ActOn) (det : Bool) (seed : Nat) :
    CURFilter σ :=
  ⟨N, a, det, seed, none, none, none, none⟩

/-- The per-species fit loop:
`for sp in sps: selected[sp] = do_CUR(X_by_sp[sp], Nselect[sp], ...)`,
threading the process-global generator state.  On the first failing species
the exception propagates; the entries already stored stay (Python has filled
`self.selected_sample_ids_by_sp` up to that point). -/
def fitLoopSps (o : SvdOracle) (mt : Nat → Nat → ℚ) (m : Managers) (act : ActOn)
    (det : Bool) (seed : Nat) :
    List (Nat × Nat) → NpRandomState → List (Nat × List Nat) →
      List (Nat × List Nat) × NpRandomState × Option CurError
  | [], st, acc => (acc, st, none)
  | (sp, n) :: rest, st, acc =>
    match do_CUR o mt (rowSlice m.features (indicesBySp m sp)) n act det seed st with
    | .ok (sel, st') => fitLoopSps o mt m act det seed rest st' (acc ++ [(sp, sel)])
    | .error e => (acc, st, some e)

/-- `CURFilter.fit`: dispatch on the configured mode; the returned filter
carries exactly the state mutations performed before any exception (Python
mutates `self` in place, so a failing species leaves the entries stored for
the species processed earlier). -/
def CURFilter.fit {σ : Type} (o : SvdOracle) (mt : Nat → Nat → ℚ) (f : CURFilter σ)
    (m : Managers) (st : NpRandomState) :
    CURFilter σ × NpRandomState × Option CurError :=
  match f.act_on, f.Nselect with
  | .samplePerSpecies, .bySp d =>
    let r := fitLoopSps o mt m .samplePerSpecies f.is_deterministic f.seed d st []
    ({f with selected_sample_ids_by_sp := some r.1}, r.2.1, r.2.2)
  | .sample, .scalar n =>
    match do_CUR o mt m.features n .sample f.is_deterministic f.seed st with
    | .ok (sel, st') => ({f with selected_sample_ids := some sel}, st', none)
    | .error e => (f, st, some e)
  | .feature, .scalar n =>
    match do_CUR o mt m.features n .feature f.is_deterministic f.seed st with
    | .ok (sel, st') => ({f with selected_feature_ids_global := some sel}, st', none)
    | .error e => (f, st, some e)
  | _, _ => (f, st, some .typeError)

/-- `np.sort` on an integer vector: the ascending value sort. -/
def npSortNat (l : List Nat) : List Nat :=
  List.insertionSort (fun a b => a ≤ b) l

/-- The per-group truncation performed by `transform` before remapping:
`{key: np.sort(val[:n_select[key]]) for key, val in cached.items()}`.
The comprehension looks up `n_select[key]` for every cached group in order; a
cached group whose species is missing from the override mapping raises
`KeyError`, modelled as `none` (the partially built dict is discarded). -/
def preRemapSps : List (Nat × List Nat) → List (Nat × Nat) →
    Option (List (Nat × List Nat))
  | [], _ => some []
  | kv :: rest, nd =>
    match nd.lookup kv.1 with
    | some k => (preRemapSps rest nd).map
        (fun tail => (kv.1, npSortNat (kv.2.take k)) :: tail)
    | none => none

/-- When the override mapping covers every cached group, the comprehension
succeeds and is the per-group map of sorted prefixes. -/
theorem preRemapSps_eq_map (cache : List (Nat × List Nat)) (nd : List (Nat × Nat))
    (h : ∀ kv ∈ cache, (nd.lookup kv.1).isSome) :
    preRemapSps cache nd = some
      (cache.map (fun kv => (kv.1, npSortNat (kv.2.take ((nd.lookup kv.1).getD 0))))) := by
  induction cache with
  | nil => rfl
  | cons kv rest ih =>
    rw [preRemapSps]
    cases hl : nd.lookup kv.1 with
    | none =>
      have := h kv (List.mem_cons_self _ _)
      rw [hl] at this
      cases this
    | some k =>
      rw [ih (fun kv' h' => h kv' (List.mem_cons_of_mem _ h'))]
      simp [hl]

/-- Result of `transform`: pseudo points (`sample per species`),
structure-aware converted ids (`sample`), or the coefficient subselection
(`feature`). -/
inductive TransformOut (σ π γ : Type) where
  | pts : π → TransformOut σ π γ
  | ids : σ → TransformOut σ π γ
  | feat : γ × List Nat × List Nat → TransformOut σ π γ

section FilterTransform

variable {σ π γ : Type}
variable (convert_sps : Managers → List (Nat × List Nat) → σ)
variable (convert_sample : Managers → List Nat → σ)
variable (extendSparse : Managers → σ → π)
variable (featCoeffs : Managers → List Nat → γ)

/-- `CURFilter.transform(managers, n_select=None)`.

* default budget: the fit-time `Nselect`;
* `sample per species`: sorted per-group prefixes of the cached selection,
  remapped (`convert_selected_global_index2rascal_sample_per_species` with the
  stride tables derived from `managers`), then handed to the sparse-point
  builder;
* `sample`: `np.sort(cached[:n_select])` remapped;
* `feature`: `sorting = np.argsort(cached[:n_select])`,
  `ids = cached[sorting]`, plus the coefficient components from the feature
  index mapping; returns `(coefficients, global ids, fps ordering)`.

An unfitted filter (cached field `None`), a mode/budget type mismatch, or a
`KeyError` in the per-group truncation has no successful Python execution;
those cases return `none` with the filter unchanged (the exception is raised
before `self.selected_ids` is assigned). -/
def CURFilter.transform (f : CURFilter σ) (m : Managers) (nsel : Option NSelect) :
    CURFilter σ × Option (TransformOut σ π γ) :=
  let n := nsel.getD f.Nselect
  match f.act_on with
  | .samplePerSpecies =>
    match f.selected_sample_ids_by_sp, n with
    | some cache, .bySp nd =>
      match preRemapSps cache nd with
      | some selected_ids_by_sp =>
        let sids := convert_sps m selected_ids_by_sp
        ({f with selected_ids := some (.inl sids)}, some (.pts (extendSparse m sids)))
      | none => (f, none)
    | _, _ => (f, none)
  | .sample =>
    match f.selected_sample_ids, n with
    | some cache, .scalar kk =>
      let sids := convert_sample m (npSortNat (cache.take kk))
      ({f with selected_ids := some (.inl sids)}, some (.ids sids))
    | _, _ => (f, none)
  | .feature =>
    match f.selected_feature_ids_global, n with
    | some cache, .scalar kk =>
      let sorting := npArgsortNat (cache.take kk)
      let ids := sorting.map (fun i => cache.getD i 0)
      ({f with selected_ids := some (.inr ids)},
        some (.feat (featCoeffs m ids, ids, sorting)))
    | _, _ => (f, none)

end FilterTransform

/-- The flat state mapping extracted by `CURFilter._get_data`. -/
structure FilterData (σ : Type) where
  selected_ids : Option (σ ⊕ List Nat)
  selected_sample_ids : Option (List Nat)
  selected_sample_ids_by_sp : Option (List (Nat × List Nat))
  selected_feature_ids_global : Option (List Nat)
deriving DecidableEq

/-- `CURFilter._get_data`. -/
def CURFilter.get_data {σ : Type} (f : CURFilter σ) : FilterData σ :=
  ⟨f.selected_ids, f.selected_sample_ids, f.selected_sample_ids_by_sp,
    f.selected_feature_ids_global⟩

/-- `CURFilter._set_data`: reinstates the four selection arrays verbatim. -/
def CURFilter.set_data {σ : Type} (f : CURFilter σ) (d : FilterData σ) : CURFilter σ :=
  { f with
    selected_ids := d.selected_ids
    selected_sample_ids := d.selected_sample_ids
    selected_sample_ids_by_sp := d.selected_sample_ids_by_sp
    selected_feature_ids_global := d.selected_feature_ids_global }

/-! ### Error propagation in `fit` (claim C5) -/

theorem do_CUR_ok_dims (o : SvdOracle) (mt : Nat → Nat → ℚ) (X : Mat) (N : Nat)
    (a : ActOn) (det : Bool) (s : Nat) (st : NpRandomState)
    (r : List Nat × NpRandomState) (h : do_CUR o mt X N a det s st = .ok r) :
    1 ≤ N ∧ N < min X.rows X.cols := by
  by_cases hc : 1 ≤ N ∧ N < min X.rows X.cols
  · exact hc
  · unfold do_CUR svds at h
    rw [if_neg hc] at h
    simp at h

theorem do_CUR_error_dim (o : SvdOracle) (mt : Nat → Nat → ℚ) (X : Mat) (N : Nat)
    (a : ActOn) (det : Bool) (s : Nat) (st : NpRandomState) (e : CurError)
    (h : do_CUR o mt X N a det s st = .error e) : e = .dimensionError := by
  unfold do_CUR svds at h
  by_cases hc : 1 ≤ N ∧ N < min X.rows X.cols
  · rw [if_pos hc] at h
    dsimp only at h
    split at h <;> simp at h
  · rw [if_neg hc] at h
    dsimp only at h
    exact (Except.error.inj h).symm

/-- If the per-species loop finishes without error, every listed species
passed scipy's dimension check on its own sub-matrix. -/
theorem fitLoopSps_none_sound (o : SvdOracle) (mt : Nat → Nat → ℚ) (m : Managers)
    (act : ActOn) (det : Bool) (seed : Nat) :
    ∀ (d : List (Nat × Nat)) (st : NpRandomState) (acc : List (Nat × List Nat)),
      (fitLoopSps o mt m act det seed d st acc).2.2 = none →
      ∀ p ∈ d, 1 ≤ p.2 ∧ p.2 < min (indicesBySp m p.1).length m.features.cols := by
  intro d
  induction d with
  | nil => intro st acc _ p hp; cases hp
  | cons q rest ih =>
    obtain ⟨sp, n⟩ := q
    intro st acc h p hp
    rw [fitLoopSps] at h
    cases hdc : do_CUR o mt (rowSlice m.features (indicesBySp m sp)) n act det seed st with
    | error e => rw [hdc] at h; simp at h
    | ok r =>
      rw [hdc] at h
      dsimp only at h
      rcases List.mem_cons.mp hp with rfl | hp'
      · have := do_CUR_ok_dims _ _ _ _ _ _ _ _ _ hdc
        simpa [rowSlice] using this
      · exact ih _ _ h p hp'

/-- Any error escaping the per-species loop is the dimension error. -/
theorem fitLoopSps_error_dim (o : SvdOracle) (mt : Nat → Nat → ℚ) (m : Managers)
    (act : ActOn) (det : Bool) (seed : Nat) :
    ∀ (d : List (Nat × Nat)) (st : NpRandomState) (acc : List (Nat × List Nat)) (e : CurError),
      (fitLoopSps o mt m act det seed d st acc).2.2 = some e → e = .dimensionError := by
  intro d
  induction d with
  | nil => intro st acc e h; simp [fitLoopSps] at h
  | cons q rest ih =>
    obtain ⟨sp, n⟩ := q
    intro st acc e h
    rw [fitLoopSps] at h
    cases hdc : do_CUR o mt (rowSlice m.features (indicesBySp m sp)) n act det seed st with
    | error e' =>
      rw [hdc] at h
      dsimp only at h
      rw [do_CUR_error_dim _ _ _ _ _ _ _ _ _ hdc] at h
      exact (Option.some.inj h).symm
    | ok r =>
      rw [hdc] at h
      dsimp only at h
      exact ih _ _ _ h

/-- `svds`' validation failure propagated through `do_CUR`. -/
theorem do_CUR_bad_dims (o : SvdOracle) (mt : Nat → Nat → ℚ) (X : Mat) (N : Nat)
    (a : ActOn) (det : Bool) (s : Nat) (st : NpRandomState)
    (h : ¬ (1 ≤ N ∧ N < min X.rows X.cols)) :
    do_CUR o mt X N a det s st = .error .dimensionError := by
  unfold do_CUR svds
  rw [if_neg h]

/-- Claim C5 (amended): whenever the requested budget for any group is at
least that group's sample/feature count — the matrix's row count in `sample`
mode, its column count in `feature` mode, a species' own row count in
`sample per species` mode — or a species listed in the budget mapping has
zero matching rows, `fit` fails with the dimension error (scipy's `k`
validation inside `svds`, checked before any factorization work on the
failing group).  In `sample` and `feature` mode the failing fit leaves the
filter unchanged; in `sample per species` mode the selections of species
processed earlier in the loop remain stored — see the counterexample. -/
theorem fit_fails_on_bad_budget {σ : Type} (o : SvdOracle) (mt : Nat → Nat → ℚ)
    (f : CURFilter σ) (m : Managers) (st : NpRandomState) :
    (∀ (d : List (Nat × Nat)) (p : Nat × Nat),
      f.act_on = .samplePerSpecies → f.Nselect = .bySp d → p ∈ d →
      ((indicesBySp m p.1).length ≤ p.2 ∨ indicesBySp m p.1 = []) →
      (CURFilter.fit o mt f m st).2.2 = some .dimensionError) ∧
    (∀ n : Nat, f.act_on = .sample → f.Nselect = .scalar n → m.features.rows ≤ n →
      (CURFilter.fit o mt f m st).2.2 = some .dimensionError ∧
        (CURFilter.fit o mt f m st).1 = f) ∧
    (∀ n : Nat, f.act_on = .feature → f.Nselect = .scalar n → m.features.cols ≤ n →
      (CURFilter.fit o mt f m st).2.2 = some .dimensionError ∧
        (CURFilter.fit o mt f m st).1 = f) := by
  obtain ⟨fN, fa, fdet, fs, f1, f2, f3, f4⟩ := f
  refine ⟨?_, ?_, ?_⟩
  · intro d p hact hN hp hbad
    dsimp only at hact hN
    subst hact; subst hN
    unfold CURFilter.fit
    dsimp only
    cases herr : (fitLoopSps o mt m .samplePerSpecies fdet fs d st []).2.2 with
    | none =>
      exfalso
      have hdims := fitLoopSps_none_sound o mt m .samplePerSpecies fdet fs d st [] herr p hp
      rcases hbad with hb | hb
      · omega
      · rw [hb] at hdims
        simp at hdims
    | some e =>
      rw [fitLoopSps_error_dim o mt m .samplePerSpecies fdet fs d st [] e herr]
  · intro n hact hN hbig
    dsimp only at hact hN
    subst hact; subst hN
    unfold CURFilter.fit
    dsimp only
    rw [do_CUR_bad_dims o mt m.features n .sample fdet fs st
      (by have := Nat.min_le_left m.features.rows m.features.cols; omega)]
    exact ⟨rfl, rfl⟩
  · intro n hact hN hbig
    dsimp only at hact hN
    subst hact; subst hN
    unfold CURFilter.fit
    dsimp only
    rw [do_CUR_bad_dims o mt m.features n .feature fdet fs st
      (by have := Nat.min_le_right m.features.rows m.features.cols; omega)]
    exact ⟨rfl, rfl⟩

/-- All-zero 3×3 matrix whose three samples all carry species label 1. -/
def mgr3 : Managers := ⟨⟨3, 3, fun _ _ => 0⟩, fun _ => 1⟩

/-- A filter asking for one sample of species 1 and one of species 6 (absent
from `mgr3`). -/
def f5 : CURFilter (List Nat) :=
  initFilter (List Nat) (.bySp [(1, 1), (6, 1)]) .samplePerSpecies true 10

/-- Counterexample to claim C5 as stated: species 6 is listed with zero
matching rows, so `fit` fails with the dimension error — but the selection
computed for species 1, processed earlier in the loop, is already stored on
the filter: partial selection state IS produced. -/
theorem fit_partial_state_counterexample :
    (CURFilter.fit zeroOracle zeroMt f5 mgr3 ⟨0, 0⟩).2.2 = some .dimensionError ∧
      (CURFilter.fit zeroOracle zeroMt f5 mgr3 ⟨0, 0⟩).1.selected_sample_ids_by_sp =
        some [(1, [0])] ∧
      ([(1, [0])] : List (Nat × List Nat)) ≠ [] := by
  refine ⟨by decide, by decide, by decide⟩

/-! ### `transform`: prefix truncation and frame (claims C7, C10) -/

section TransformClaims

variable {σ π γ : Type}
variable (convert_sps : Managers → List (Nat × List Nat) → σ)
variable (convert_sample : Managers → List Nat → σ)
variable (extendSparse : Managers → σ → π)
variable (featCoeffs : Managers → List Nat → γ)

/-- `transform` writes only `selected_ids`: the cached fit-time selections are
never modified. -/
theorem transform_fields_frame (f : CURFilter σ) (m : Managers) (nsel : Option NSelect) :
    ((CURFilter.transform convert_sps convert_sample extendSparse featCoeffs
        f m nsel).1.selected_sample_ids_by_sp = f.selected_sample_ids_by_sp) ∧
    ((CURFilter.transform convert_sps convert_sample extendSparse featCoeffs
        f m nsel).1.selected_sample_ids = f.selected_sample_ids) ∧
    ((CURFilter.transform convert_sps convert_sample extendSparse featCoeffs
        f m nsel).1.selected_feature_ids_global = f.selected_feature_ids_global) := by
  obtain ⟨fN, fa, fdet, fs, f1, f2, f3, f4⟩ := f
  unfold CURFilter.transform
  cases fa <;> dsimp only <;> (split <;> (try split) <;> simp)

/-- The cached selections survive any sequence of `transform` calls. -/
theorem transform_foldl_cache_stable (f : CURFilter σ)
    (calls : List (Managers × Option NSelect)) :
    ((calls.foldl (fun g c => (CURFilter.transform convert_sps convert_sample
          extendSparse featCoeffs g c.1 c.2).1) f).selected_sample_ids_by_sp =
        f.selected_sample_ids_by_sp) ∧
    ((calls.foldl (fun g c => (CURFilter.transform convert_sps convert_sample
          extendSparse featCoeffs g c.1 c.2).1) f).selected_sample_ids =
        f.selected_sample_ids) := by
  induction calls generalizing f with
  | nil => exact ⟨rfl, rfl⟩
  | cons c rest ih =>
    rw [List.foldl_cons]
    have h := transform_fields_frame convert_sps convert_sample extendSparse featCoeffs
      f c.1 c.2
    have ih' := ih ((CURFilter.transform convert_sps convert_sample extendSparse
      featCoeffs f c.1 c.2).1)
    exact ⟨ih'.1.trans h.1, ih'.2.trans h.2.1⟩

/-- Claim C7: for a fitted filter in mode `sample` or `sample per species`,
with a per-group override budget at most the fit-time budget supplied for
every cached group (Python raises `KeyError` for a cached group missing from
the override mapping), `transform`'s pre-remapping selection for each group is
the ascending sort of the first `k` elements of that group's cached fit-time
selection (a sorted permutation of the prefix), obtained purely from the
cache (no re-run of the selection algorithm, which `transform` cannot even
reach — it takes no SVD oracle or random stream); and the cached selection
itself is unchanged by any sequence of `transform` calls. -/
theorem transform_prefix_truncation (f : CURFilter σ) (m : Managers) :
    (∀ (cache : List (Nat × List Nat)) (nd d0 : List (Nat × Nat)) (kv : Nat × List Nat)
        (kb b0 : Nat),
      f.act_on = .samplePerSpecies →
      f.selected_sample_ids_by_sp = some cache →
      f.Nselect = .bySp d0 →
      (∀ kv' ∈ cache, (nd.lookup kv'.1).isSome) →
      kv ∈ cache → nd.lookup kv.1 = some kb → d0.lookup kv.1 = some b0 → kb ≤ b0 →
      ∃ pre, preRemapSps cache nd = some pre ∧
        (kv.1, npSortNat (kv.2.take kb)) ∈ pre ∧
        (npSortNat (kv.2.take kb)).Sorted (· ≤ ·) ∧
        List.Perm (npSortNat (kv.2.take kb)) (kv.2.take kb) ∧
        (CURFilter.transform convert_sps convert_sample extendSparse featCoeffs
            f m (some (.bySp nd))).2 =
          some (.pts (extendSparse m (convert_sps m pre)))) ∧
    (∀ (cache : List Nat) (kk b0 : Nat),
      f.act_on = .sample → f.selected_sample_ids = some cache →
      f.Nselect = .scalar b0 → kk ≤ b0 →
      ((CURFilter.transform convert_sps convert_sample extendSparse featCoeffs
          f m (some (.scalar kk))).2 =
        some (.ids (convert_sample m (npSortNat (cache.take kk)))) ∧
        (npSortNat (cache.take kk)).Sorted (· ≤ ·) ∧
        List.Perm (npSortNat (cache.take kk)) (cache.take kk))) ∧
    (∀ calls : List (Managers × Option NSelect),
      ((calls.foldl (fun g c => (CURFilter.transform convert_sps convert_sample
            extendSparse featCoeffs g c.1 c.2).1) f).selected_sample_ids_by_sp =
          f.selected_sample_ids_by_sp) ∧
      ((calls.foldl (fun g c => (CURFilter.transform convert_sps convert_sample
            extendSparse featCoeffs g c.1 c.2).1) f).selected_sample_ids =
          f.selected_sample_ids)) := by
  refine ⟨?_, ?_, ?_⟩
  · intro cache nd d0 kv kb b0 hact hcache hN hcover hkv hkb hb0 hkbb0
    have hpre := preRemapSps_eq_map cache nd hcover
    refine ⟨_, hpre, ?_, ?_, ?_, ?_⟩
    · refine List.mem_map.mpr ⟨kv, hkv, ?_⟩
      rw [hkb]
      rfl
    · exact List.sorted_insertionSort (fun a b => a ≤ b) _
    · exact List.perm_insertionSort _ _
    · obtain ⟨fN, fa, fdet, fs, f1, f2, f3, f4⟩ := f
      dsimp only at hact hcache
      subst hact; subst hcache
      dsimp only [CURFilter.transform, Option.getD]
      rw [hpre]
      rfl
  · intro cache kk b0 hact hcache hN hkk
    refine ⟨?_, ?_, ?_⟩
    · obtain ⟨fN, fa, fdet, fs, f1, f2, f3, f4⟩ := f
      dsimp only at hact hcache
      subst hact; subst hcache
      rfl
    · exact List.sorted_insertionSort (fun a b => a ≤ b) _
    · exact List.perm_insertionSort _ _
  · exact transform_foldl_cache_stable convert_sps convert_sample extendSparse featCoeffs f

/-- Claim C10: a `transform` override budget larger than the cached selection
silently clamps: the Python slice `val[:n]` returns the whole cached list, no
error is raised by the truncation, and the group contributes all (hence fewer
than requested) cached indices.  In `sample per species` mode the override
mapping must still cover every cached group (a missing group raises
`KeyError` in Python, independent of the clamping). -/
theorem transform_clamps_large_budget (f : CURFilter σ) (m : Managers) :
    (∀ (cache : List Nat) (kk : Nat),
      f.act_on = .sample → f.selected_sample_ids = some cache → cache.length ≤ kk →
      ((CURFilter.transform convert_sps convert_sample extendSparse featCoeffs
          f m (some (.scalar kk))).2 =
        some (.ids (convert_sample m (npSortNat cache))) ∧
        (npSortNat cache).length = cache.length)) ∧
    (∀ (cache : List (Nat × List Nat)) (nd : List (Nat × Nat)) (kv : Nat × List Nat)
        (kb : Nat),
      f.act_on = .samplePerSpecies → f.selected_sample_ids_by_sp = some cache →
      (∀ kv' ∈ cache, (nd.lookup kv'.1).isSome) →
      kv ∈ cache → nd.lookup kv.1 = some kb → kv.2.length ≤ kb →
      ∃ pre, preRemapSps cache nd = some pre ∧
        (kv.1, npSortNat kv.2) ∈ pre ∧
        (npSortNat kv.2).length = kv.2.length ∧
        (CURFilter.transform convert_sps convert_sample extendSparse featCoeffs
            f m (some (.bySp nd))).2 =
          some (.pts (extendSparse m (convert_sps m pre)))) := by
  constructor
  · intro cache kk hact hcache hlen
    constructor
    · obtain ⟨fN, fa, fdet, fs, f1, f2, f3, f4⟩ := f
      dsimp only at hact hcache
      subst hact; subst hcache
      dsimp only [CURFilter.transform, Option.getD]
      rw [List.take_of_length_le hlen]
    · exact (List.perm_insertionSort _ _).length_eq
  · intro cache nd kv kb hact hcache hcover hkv hkb hlen
    have hpre := preRemapSps_eq_map cache nd hcover
    refine ⟨_, hpre, ?_, ?_, ?_⟩
    · refine List.mem_map.mpr ⟨kv, hkv, ?_⟩
      rw [hkb]
      dsimp only [Option.getD]
      rw [List.take_of_length_le hlen]
    · exact (List.perm_insertionSort _ _).length_eq
    · obtain ⟨fN, fa, fdet, fs, f1, f2, f3, f4⟩ := f
      dsimp only at hact hcache
      subst hact; subst hcache
      dsimp only [CURFilter.transform, Option.getD]
      rw [hpre]
      rfl

end TransformClaims

/-! ### State extraction round trip (claim C8) -/

/-- Claim C8: for every fitted filter, restoring the extracted state mapping
(`selected_ids`, `selected_sample_ids`, `selected_sample_ids_by_sp`,
`selected_feature_ids_global`) onto a filter constructed with the same
parameters yields a filter whose `transform` output on the same inputs is
identical, in all three modes, without re-running `fit` — for every remapping
and sparse-point collaborator and every budget override. -/
theorem transform_after_state_round_trip {σ π γ : Type}
    (convert_sps : Managers → List (Nat × List Nat) → σ)
    (convert_sample : Managers → List Nat → σ)
    (extendSparse : Managers → σ → π)
    (featCoeffs : Managers → List Nat → γ)
    (f g : CURFilter σ) (m : Managers) (nsel : Option NSelect)
    (hN : g.Nselect = f.Nselect) (ha : g.act_on = f.act_on)
    (hdet : g.is_deterministic = f.is_deterministic) (hs : g.seed = f.seed) :
    (CURFilter.transform convert_sps convert_sample extendSparse featCoeffs
        (g.set_data f.get_data) m nsel).2 =
      (CURFilter.transform convert_sps convert_sample extendSparse featCoeffs
        f m nsel).2 := by
  obtain ⟨fN, fa, fdet, fs, f1, f2, f3, f4⟩ := f
  obtain ⟨gN, ga, gdet, gs, g1, g2, g3, g4⟩ := g
  dsimp only at hN ha hdet hs
  subst hN; subst ha; subst hdet; subst hs
  rfl

/-! ### Per-species reseeding (claim C9)

`fit` passes the same `self.seed` to `do_CUR` for every species, and the
stochastic branch of `do_CUR` starts with `np.random.seed(seed)`: the global
generator is reseeded before each species' selection. -/

/-- The stochastic selection as a pure function of (sub-matrix, budget, seed):
the value `do_CUR` produces from any incoming generator state. -/
def pureStochSel (o : SvdOracle) (mt : Nat → Nat → ℚ) (X : Mat) (n seed : Nat) :
    Option (List Nat) :=
  match do_CUR o mt X n .samplePerSpecies false seed ⟨0, 0⟩ with
  | .ok r => some r.1
  | .error _ => none

/-- Association-list lookup of a mapped entry under distinct keys. -/
theorem lookup_map_entry {β : Type} (F : Nat × Nat → β) :
    ∀ (d : List (Nat × Nat)) (p : Nat × Nat), (d.map Prod.fst).Nodup → p ∈ d →
      (d.map (fun q => (q.1, F q))).lookup p.1 = some (F p) := by
  intro d
  induction d with
  | nil => intro p _ hp; cases hp
  | cons q rest ih =>
    intro p hnd hp
    rw [List.map_cons, List.nodup_cons] at hnd
    rw [List.map_cons]
    rcases List.mem_cons.mp hp with rfl | hp'
    · simp [List.lookup]
    · have hne : p.1 ≠ q.1 := by
        intro he
        exact hnd.1 (he ▸ List.mem_map.mpr ⟨p, hp', rfl⟩)
      rw [List.lookup_cons, beq_eq_false_iff_ne.mpr hne]
      exact ih p hnd.2 hp'

/-- A successful stochastic per-species loop stores, for each listed species
in order, exactly the pure selection of its own sub-matrix, budget and seed —
independent of the generator state it happened to start from (the reseeding
inside `do_CUR` erases it). -/
theorem fitLoopSps_stoch_entries (o : SvdOracle) (mt : Nat → Nat → ℚ) (m : Managers)
    (seed : Nat) :
    ∀ (d : List (Nat × Nat)) (st : NpRandomState) (acc : List (Nat × List Nat)),
      (fitLoopSps o mt m .samplePerSpecies false seed d st acc).2.2 = none →
      (fitLoopSps o mt m .samplePerSpecies false seed d st acc).1 =
        acc ++ d.map (fun p => (p.1,
          (pureStochSel o mt (rowSlice m.features (indicesBySp m p.1)) p.2 seed).getD [])) := by
  intro d
  induction d with
  | nil => intro st acc _; simp [fitLoopSps]
  | cons q rest ih =>
    obtain ⟨sp, n⟩ := q
    intro st acc h
    rw [fitLoopSps] at h ⊢
    cases hdc : do_CUR o mt (rowSlice m.features (indicesBySp m sp)) n
        .samplePerSpecies false seed st with
    | error e => rw [hdc] at h; simp at h
    | ok r =>
      rw [hdc] at h
      dsimp only at h ⊢
      have hpure : pureStochSel o mt (rowSlice m.features (indicesBySp m sp)) n seed
          = some r.1 := by
        unfold pureStochSel
        rw [do_CUR_stochastic_state_independent o mt
          (rowSlice m.features (indicesBySp m sp)) n .samplePerSpecies seed ⟨0, 0⟩ st, hdc]
      rw [ih _ _ h, List.map_cons, hpure]
      simp

/-- Claim C9: in a stochastic `sample per species` fit, the generator is
reseeded with the configured seed before each species' selection, so each
species' stored selection is a pure function of its own sub-matrix, its own
budget and the seed — independent of the incoming generator state and of the
species processed before it; in particular two listed species with equal
sub-matrices and equal budgets receive identical selections. -/
theorem fit_sps_stochastic_species_independent {σ : Type} (o : SvdOracle)
    (mt : Nat → Nat → ℚ) (f : CURFilter σ) (m : Managers) (st : NpRandomState)
    (d : List (Nat × Nat)) (hact : f.act_on = .samplePerSpecies)
    (hdet : f.is_deterministic = false) (hN : f.Nselect = .bySp d)
    (hnodup : (d.map Prod.fst).Nodup)
    (hok : (CURFilter.fit o mt f m st).2.2 = none) :
    ∃ dict, (CURFilter.fit o mt f m st).1.selected_sample_ids_by_sp = some dict ∧
      (∀ p ∈ d, dict.lookup p.1 = some
        ((pureStochSel o mt (rowSlice m.features (indicesBySp m p.1)) p.2 f.seed).getD [])) ∧
      (∀ p q, p ∈ d → q ∈ d →
        rowSlice m.features (indicesBySp m p.1) = rowSlice m.features (indicesBySp m q.1) →
        p.2 = q.2 → dict.lookup p.1 = dict.lookup q.1) := by
  obtain ⟨fN, fa, fdet, fs, f1, f2, f3, f4⟩ := f
  dsimp only at hact hdet hN ⊢
  subst hact; subst hdet; subst hN
  unfold CURFilter.fit at hok ⊢
  dsimp only at hok ⊢
  have hd := fitLoopSps_stoch_entries o mt m fs d st [] hok
  rw [List.nil_append] at hd
  refine ⟨_, rfl, ?_, ?_⟩
  · intro p hp
    rw [hd]
    exact lookup_map_entry _ d p hnodup hp
  · intro p q hp hq hXX hn
    rw [hd, lookup_map_entry _ d p hnodup hp, lookup_map_entry _ d q hnodup hq,
      hXX, hn]

/-! ### Concrete witnesses for the filter-level theorems -/

/-- Concrete remapping collaborator used by witnesses. -/
def convSpsW : Managers → List (Nat × List Nat) → List Nat := fun _ d => d.map Prod.fst

/-- Concrete remapping collaborator used by witnesses. -/
def convSampleW : Managers → List Nat → List Nat := fun _ l => l

/-- Concrete sparse-point builder used by witnesses. -/
def extendW : Managers → List Nat → Nat := fun _ l => l.length

/-- Concrete feature-coefficient collaborator used by witnesses. -/
def featW : Managers → List Nat → Nat := fun _ l => l.length

/-- Concrete managers value used by witnesses. -/
def mgrW : Managers := ⟨mat2, fun _ => 1⟩

/-- A `sample`-mode filter with budget 5, larger than `mgr3`'s three rows,
for the C5 witness. -/
def fSam : CURFilter (List Nat) := initFilter (List Nat) (.scalar 5) .sample true 10

/-- Witness for the amended C5 at concrete inputs: a listed species with zero
rows in `sample per species` mode, and an oversized budget in `sample` mode
(leaving the filter untouched). -/
theorem fit_fails_on_bad_budget_witness :
    (f5.act_on = .samplePerSpecies ∧ f5.Nselect = .bySp [(1, 1), (6, 1)] ∧
      ((6, 1) : Nat × Nat) ∈ [(1, 1), (6, 1)] ∧ indicesBySp mgr3 6 = [] ∧
      fSam.act_on = .sample ∧ fSam.Nselect = .scalar 5 ∧ mgr3.features.rows ≤ 5) ∧
      (CURFilter.fit zeroOracle zeroMt f5 mgr3 ⟨0, 0⟩).2.2 = some .dimensionError ∧
      ((CURFilter.fit zeroOracle zeroMt fSam mgr3 ⟨0, 0⟩).2.2 = some .dimensionError ∧
        (CURFilter.fit zeroOracle zeroMt fSam mgr3 ⟨0, 0⟩).1 = fSam) :=
  ⟨⟨rfl, rfl, by decide, by decide, rfl, rfl, by decide⟩,
    (fit_fails_on_bad_budget zeroOracle zeroMt f5 mgr3 ⟨0, 0⟩).1 [(1, 1), (6, 1)] (6, 1)
      rfl rfl (by decide) (Or.inr (by decide)),
    (fit_fails_on_bad_budget zeroOracle zeroMt fSam mgr3 ⟨0, 0⟩).2.1 5 rfl rfl (by decide)⟩

/-- A fitted `sample per species` filter used by the C7 witness: species 1 was
fitted with budget 2 and cached selection `[5, 3]`. -/
def f7 : CURFilter (List Nat) :=
  ⟨.bySp [(1, 2)], .samplePerSpecies, true, 10, none, none, some [(1, [5, 3])], none⟩

/-- Witness for C7 at a concrete input. -/
theorem transform_prefix_truncation_witness :
    (f7.act_on = .samplePerSpecies ∧ f7.selected_sample_ids_by_sp = some [(1, [5, 3])] ∧
      f7.Nselect = .bySp [(1, 2)] ∧
      (∀ kv' ∈ ([(1, [5, 3])] : List (Nat × List Nat)),
        (([(1, 1)] : List (Nat × Nat)).lookup kv'.1).isSome) ∧
      ((1, [5, 3]) : Nat × List Nat) ∈ [(1, [5, 3])] ∧
      ([(1, 1)] : List (Nat × Nat)).lookup 1 = some 1 ∧
      ([(1, 2)] : List (Nat × Nat)).lookup 1 = some 2 ∧ 1 ≤ 2) ∧
      (∃ pre, preRemapSps [(1, [5, 3])] [(1, 1)] = some pre ∧
        (1, npSortNat (([5, 3] : List Nat).take 1)) ∈ pre ∧
        (npSortNat (([5, 3] : List Nat).take 1)).Sorted (· ≤ ·) ∧
        List.Perm (npSortNat (([5, 3] : List Nat).take 1)) (([5, 3] : List Nat).take 1) ∧
        (CURFilter.transform convSpsW convSampleW extendW featW f7 mgrW
            (some (.bySp [(1, 1)]))).2 =
          some (.pts (extendW mgrW (convSpsW mgrW pre)))) :=
  ⟨⟨rfl, rfl, rfl, by decide, by decide, by decide, by decide, by decide⟩,
    (transform_prefix_truncation convSpsW convSampleW extendW featW f7 mgrW).1
      [(1, [5, 3])] [(1, 1)] [(1, 2)] (1, [5, 3]) 1 2 rfl rfl rfl (by decide) (by decide)
      (by decide) (by decide) (by decide)⟩

/-- A fitted `sample` filter used by the C10 witness: cached selection `[4, 2]`. -/
def f10 : CURFilter (List Nat) :=
  ⟨.scalar 2, .sample, true, 10, none, some [4, 2], none, none⟩

/-- Witness for C10 at a concrete input: override budget 5 exceeds the two
cached indices. -/
theorem transform_clamps_large_budget_witness :
    (f10.act_on = .sample ∧ f10.selected_sample_ids = some [4, 2] ∧
      ([4, 2] : List Nat).length ≤ 5) ∧
      ((CURFilter.transform convSpsW convSampleW extendW featW f10 mgrW
          (some (.scalar 5))).2 =
        some (.ids (convSampleW mgrW (npSortNat [4, 2]))) ∧
        (npSortNat [4, 2]).length = ([4, 2] : List Nat).length) :=
  ⟨⟨rfl, rfl, by decide⟩,
    (transform_clamps_large_budget convSpsW convSampleW extendW featW f10 mgrW).1
      [4, 2] 5 rfl rfl (by decide)⟩

/-- A fitted `sample` filter used by the C8 witness. -/
def f8 : CURFilter (List Nat) :=
  ⟨.scalar 2, .sample, true, 10, none, some [3, 1, 2], none, none⟩

/-- A freshly constructed filter with the same parameters as `f8`. -/
def g8 : CURFilter (List Nat) := initFilter (List Nat) (.scalar 2) .sample true 10

/-- Witness for C8 at a concrete input. -/
theorem transform_after_state_round_trip_witness :
    (g8.Nselect = f8.Nselect ∧ g8.act_on = f8.act_on ∧
      g8.is_deterministic = f8.is_deterministic ∧ g8.seed = f8.seed) ∧
      (CURFilter.transform convSpsW convSampleW extendW featW
          (g8.set_data f8.get_data) mgrW none).2 =
        (CURFilter.transform convSpsW convSampleW extendW featW f8 mgrW none).2 :=
  ⟨⟨rfl, rfl, rfl, rfl⟩,
    transform_after_state_round_trip convSpsW convSampleW extendW featW f8 g8 mgrW none
      rfl rfl rfl rfl⟩

/-- Two species (1 and 2) with two identical all-zero rows each. -/
def mgr4 : Managers := ⟨⟨4, 2, fun _ _ => 0⟩, fun i => if i < 2 then 1 else 2⟩

/-- A stochastic `sample per species` filter used by the C9 witness. -/
def f9 : CURFilter (List Nat) :=
  initFilter (List Nat) (.bySp [(1, 1), (2, 1)]) .samplePerSpecies false 7

/-- Witness for C9 at a concrete input. -/
theorem fit_sps_stochastic_species_independent_witness :
    (f9.act_on = .samplePerSpecies ∧ f9.is_deterministic = false ∧
      f9.Nselect = .bySp [(1, 1), (2, 1)] ∧
      (([(1, 1), (2, 1)] : List (Nat × Nat)).map Prod.fst).Nodup ∧
      (CURFilter.fit zeroOracle zeroMt f9 mgr4 ⟨0, 0⟩).2.2 = none) ∧
      (∃ dict,
        (CURFilter.fit zeroOracle zeroMt f9 mgr4 ⟨0, 0⟩).1.selected_sample_ids_by_sp =
          some dict ∧
        (∀ p ∈ ([(1, 1), (2, 1)] : List (Nat × Nat)), dict.lookup p.1 = some
          ((pureStochSel zeroOracle zeroMt
            (rowSlice mgr4.features (indicesBySp mgr4 p.1)) p.2 f9.seed).getD [])) ∧
        (∀ p q, p ∈ ([(1, 1), (2, 1)] : List (Nat × Nat)) →
          q ∈ ([(1, 1), (2, 1)] : List (Nat × Nat)) →
          rowSlice mgr4.features (indicesBySp mgr4 p.1) =
            rowSlice mgr4.features (indicesBySp mgr4 q.1) →
          p.2 = q.2 → dict.lookup p.1 = dict.lookup q.1)) :=
  ⟨⟨rfl, rfl, rfl, by decide, by decide⟩,
    fit_sps_stochastic_species_independent zeroOracle zeroMt f9 mgr4 ⟨0, 0⟩
      [(1, 1), (2, 1)] rfl rfl rfl (by decide) (by decide)⟩

end Cur
